import Mathlib

/-!
Verification development for the path-exclusion matcher and diagnostic parser of
clang_tidy_full_report.py.  All definitions are shallow embeddings of the Python
source (paths and patterns as lists of characters); theorems settle the spec's
claims about them.
-/

set_option maxHeartbeats 4000000
set_option maxRecDepth 4000

namespace ClangTidyFullReport

/-- Embedding of Python str.split(sep) for a single-character separator
    (accumulator-based scan; Python semantics: always at least one piece). -/
def splitCharAux (sep : Char) : List Char → List Char → List (List Char)
  | [], acc => [acc.reverse]
  | c :: rest, acc =>
    if c == sep then acc.reverse :: splitCharAux sep rest []
    else splitCharAux sep rest (c :: acc)

/-- Python str.split for a single-character separator. -/
def splitChar (sep : Char) (s : List Char) : List (List Char) :=
  splitCharAux sep s []

/-- Embedding of Python str.split applied with the two-character separator
    consisting of two asterisks (non-overlapping left-to-right scan). -/
def splitSSAux : List Char → List Char → List (List Char)
  | [], acc => [acc.reverse]
  | '*' :: '*' :: rest, acc => acc.reverse :: splitSSAux rest []
  | c :: rest, acc => splitSSAux rest (c :: acc)

/-- Python pattern.split on a double asterisk. -/
def splitSS (s : List Char) : List (List Char) :=
  splitSSAux s []

/-- Embedding of Python substring containment (the `in` operator on str). -/
def containsSub (needle : List Char) : List Char → Bool
  | [] => needle.isEmpty
  | c :: rest => needle.isPrefixOf (c :: rest) || containsSub needle rest

/-- Embedding of Python str.endswith. -/
def endsWithL (suffix s : List Char) : Bool :=
  suffix.reverse.isPrefixOf s.reverse

/-- Single-character replacement, embedding Python str.replace with
    one-character old and new strings (used for backslash-to-slash). -/
def replaceChar (old new : Char) (s : List Char) : List Char :=
  s.map (fun c => if c == old then new else c)

/-- Fixpoint of the source's loop `while // in s: s = s.replace(//, /)`:
    every run of consecutive slashes is collapsed to a single slash. -/
def collapseSlashes : List Char → List Char
  | [] => []
  | [c] => [c]
  | c :: d :: rest =>
    if c == '/' && d == '/' then collapseSlashes (d :: rest)
    else c :: collapseSlashes (d :: rest)

/-- Embedding of the source's `if s.startswith(./): s = s[2:]`. -/
def stripDotSlash (s : List Char) : List Char :=
  if (['.', '/'] : List Char).isPrefixOf s then s.drop 2 else s

/-- Embedding of Python str.lstrip applied to a slash. -/
def lstripSlash : List Char → List Char
  | '/' :: rest => lstripSlash rest
  | s => s

/-- Embedding of Python str.rstrip applied to a slash. -/
def rstripSlash (s : List Char) : List Char :=
  (lstripSlash s.reverse).reverse

/-- Join path components with slashes, embedding Python '/'.join. -/
def joinSlash : List (List Char) → List Char
  | [] => []
  | [x] => x
  | x :: xs => x ++ '/' :: joinSlash xs

/-- Embedding of posixpath.basename: everything after the last slash. -/
def basenameL (s : List Char) : List Char :=
  (splitChar '/' s).getLastD []

/-- Scan to the first closing bracket, used by the fnmatch character-class
    scanner; returns the characters before it and the remainder after it. -/
def scanToClose : List Char → Option (List Char × List Char)
  | [] => none
  | ']' :: r => some ([], r)
  | c :: r => (scanToClose r).map (fun p => (c :: p.1, p.2))

/-- Embedding of fnmatch.translate's bracket scan: after an opening bracket,
    an optional exclamation mark and an optional immediate closing bracket are
    skipped before searching for the terminating closing bracket.  Returns the
    class body and the remainder of the pattern, or none if unterminated. -/
def findClassEnd (ps : List Char) : Option (List Char × List Char) :=
  match ps with
  | '!' :: r1 =>
    (match r1 with
     | ']' :: r2 => (scanToClose r2).map (fun p => ('!' :: ']' :: p.1, p.2))
     | _ => (scanToClose r1).map (fun p => ('!' :: p.1, p.2)))
  | ']' :: r1 => (scanToClose r1).map (fun p => (']' :: p.1, p.2))
  | _ => (scanToClose ps).map (fun p => (p.1, p.2))

/-- Membership of a character in a class body: items are single characters or
    dash-separated ranges, as in the regular expression fnmatch builds. -/
def classMatchItems (c : Char) : List Char → Bool
  | [] => false
  | a :: '-' :: b :: rest => (a ≤ c && c ≤ b) || classMatchItems c rest
  | a :: rest => (a == c) || classMatchItems c rest

/-- Character-class test including leading negation. -/
def matchClass (c : Char) (stuff : List Char) : Bool :=
  match stuff with
  | '!' :: rest => !(classMatchItems c rest)
  | _ => classMatchItems c stuff

/-- Fuel-indexed glob matcher embedding Python fnmatch.fnmatch semantics on a
    POSIX system: the full name must match the pattern, a star matches any
    character sequence (including slashes and newlines, since the translated
    regular expression carries the DOTALL flag), a question mark matches any
    single character, bracket classes match per `matchClass`, an unterminated
    open bracket is a literal, and every other character matches itself. -/
def matchGlobAux : Nat → List Char → List Char → Bool
  | 0, _, _ => false
  | _ + 1, [], s => s.isEmpty
  | fuel + 1, c :: ps, s =>
    if c == '*' then
      matchGlobAux fuel ps s ||
        (match s with
         | [] => false
         | _ :: s2 => matchGlobAux fuel (c :: ps) s2)
    else if c == '?' then
      match s with
      | [] => false
      | _ :: s2 => matchGlobAux fuel ps s2
    else if c == '[' then
      match findClassEnd ps with
      | none =>
        (match s with
         | [] => false
         | d :: s2 => (d == '[') && matchGlobAux fuel ps s2)
      | some (stuff, rest) =>
        (match s with
         | [] => false
         | d :: s2 => matchClass d stuff && matchGlobAux fuel rest s2)
    else
      match s with
      | [] => false
      | d :: s2 => (c == d) && matchGlobAux fuel ps s2

/-- Embedding of fnmatch.fnmatch(name, pattern); the fuel bound exceeds the
    combined length, which the matcher never exhausts. -/
def fnmatchL (name pat : List Char) : Bool :=
  matchGlobAux (pat.length + name.length + 1) pat name

/-- Embedding of posixpath.normpath: track the number of initial slashes (two
    are preserved exactly when the path starts with exactly two), drop empty
    and single-dot components, resolve double-dot components against the
    accumulated stack, and rejoin; an empty result becomes a single dot. -/
def posixNormpath (p : List Char) : List Char :=
  if p == [] then ['.']
  else
    let initialSlashes : Nat :=
      if (['/'] : List Char).isPrefixOf p then
        if (['/', '/'] : List Char).isPrefixOf p &&
            !((['/', '/', '/'] : List Char).isPrefixOf p) then 2 else 1
      else 0
    let comps := splitChar '/' p
    let newComps := comps.foldl
      (fun acc comp =>
        if comp == [] || comp == ['.'] then acc
        else if comp != ['.', '.'] || (initialSlashes == 0 && acc.isEmpty) ||
            (!acc.isEmpty && acc.getLastD [] == ['.', '.']) then
          acc ++ [comp]
        else if !acc.isEmpty then acc.dropLast
        else acc)
      []
    let res := List.replicate initialSlashes '/' ++ joinSlash newComps
    if res == [] then ['.'] else res

/-- Normalization the matcher applies to the file path (source lines 336-342):
    posixpath.normpath, backslashes to slashes, strip one leading dot-slash,
    collapse duplicate slashes. -/
def normalizeMatchPath (filePath : List Char) : List Char :=
  collapseSlashes (stripDotSlash (replaceChar '\\' '/' (posixNormpath filePath)))

/-- Normalization the matcher applies to the pattern (source lines 344-351):
    backslashes to slashes, strip one leading dot-slash, collapse duplicate
    slashes. -/
def normalizePattern (pat : List Char) : List Char :=
  collapseSlashes (stripDotSlash (replaceChar '\\' '/' pat))

/-- Embedding of `_should_exclude_with_pattern` (source lines 333-472), with
    the debug printing omitted since it never affects the returned value. -/
def shouldExcludeWithPattern (filePath pat : List Char) : Bool :=
  let np := normalizeMatchPath filePath
  let p := normalizePattern pat
  if containsSub ['*', '*'] p then
    if p == ['*', '*'] then
      true
    else if (['*', '*', '/'] : List Char).isPrefixOf p then
      let searchPat := p.drop 3
      let parts := splitChar '/' np
      (List.range parts.length).any fun i =>
        fnmatchL (parts.getD i []) searchPat ||
          fnmatchL (joinSlash (parts.drop i)) searchPat
    else if endsWithL ['/', '*', '*'] p then
      let dirPat := p.take (p.length - 3)
      let parts := splitChar '/' np
      (parts.any fun part => fnmatchL part dirPat) ||
        containsSub ('/' :: dirPat ++ ['/']) ('/' :: np ++ ['/']) ||
        np == dirPat || (dirPat ++ ['/']).isPrefixOf np
    else
      let parts := splitSS p
      if parts.length == 2 then
        let startPat := rstripSlash (parts.getD 0 [])
        let endPat := lstripSlash (parts.getD 1 [])
        if !startPat.isEmpty then
          (List.range np.length).any fun i =>
            endsWithL startPat (np.take i) &&
              (endPat.isEmpty || fnmatchL (lstripSlash (np.drop i)) endPat)
        else
          fnmatchL np ('*' :: endPat)
      else false
  else
    fnmatchL np p ||
      (containsSub ['*'] p && !containsSub ['/'] p && fnmatchL (basenameL np) p) ||
      (endsWithL ['/', '*'] p &&
        (let dirPat := p.take (p.length - 2)
         let parts := splitChar '/' np
         (List.range parts.length).any fun i =>
           fnmatchL (joinSlash (parts.take (i + 1))) dirPat))

/-- Embedding of `_should_exclude`: true iff some pattern in the list matches. -/
def shouldExclude (filePath : List Char) (patterns : List (List Char)) : Bool :=
  patterns.any fun pat => shouldExcludeWithPattern filePath pat

/-- String-level wrapper matching the spec's is_excluded contract. -/
def isExcluded (path : String) (patterns : List String) : Bool :=
  shouldExclude path.data (patterns.map String.data)

/-- Search downward from i: first index (largest) at which f succeeds. -/
def firstSomeDown {α : Type} (f : Nat → Option α) : Nat → Option α
  | 0 => none
  | i + 1 =>
    match f (i + 1) with
    | some a => some a
    | none => firstSomeDown f i

/-- Maximal run of decimal digits at the front, embedding greedy backslash-d-plus. -/
def takeDigits : List Char → List Char × List Char
  | [] => ([], [])
  | c :: r =>
    if c.isDigit then
      let p := takeDigits r
      (c :: p.1, p.2)
    else ([], c :: r)

/-- Embedding of Python int() on a nonempty decimal digit string. -/
def digitsToNat (ds : List Char) : Nat :=
  ds.foldl (fun n c => n * 10 + (c.toNat - '0'.toNat)) 0

/-- Embedding of the severity alternation of the diagnostic regular
    expression: the longest of the three literals that is a prefix. -/
def takeSeverity (s : List Char) : Option (List Char × List Char) :=
  if ("warning".data).isPrefixOf s then some ("warning".data, s.drop 7)
  else if ("error".data).isPrefixOf s then some ("error".data, s.drop 5)
  else if ("note".data).isPrefixOf s then some ("note".data, s.drop 4)
  else none

/-- Greedy match for the trailing check group: the longest nonempty,
    newline-free prefix of t that is immediately followed by a closing
    bracket (trailing characters after it are permitted, since re.match
    does not anchor the end). -/
def matchCheck (t : List Char) : Option (List Char) :=
  firstSomeDown
    (fun k =>
      match t.drop k with
      | c :: _ =>
        if c = ']' ∧ (t.take k).all (fun x => x != '\n') then some (t.take k)
        else none
      | [] => none)
    t.length

/-- Greedy match for `message space bracket check bracket`: the message is the
    longest nonempty newline-free prefix followed by space-and-open-bracket
    and a successful check match. -/
def matchMsgCheck (s : List Char) : Option (List Char × List Char) :=
  firstSomeDown
    (fun j =>
      if (s.take j).all (fun c => c != '\n') then
        match s.drop j with
        | c :: d :: t =>
          if c = ' ' ∧ d = '[' then (matchCheck t).map (fun chk => (s.take j, chk))
          else none
        | _ => none
      else none)
    s.length

/-- Consume one literal colon. -/
def expectColon : List Char → Option (List Char)
  | c :: r => if c = ':' then some r else none
  | [] => none

/-- Consume a literal colon followed by a space. -/
def expectColonSpace : List Char → Option (List Char)
  | c :: d :: r => if c = ':' ∧ d = ' ' then some r else none
  | _ => none

/-- Match of the regular expression after the file group: colon, line digits,
    colon, column digits, colon-space, severity, colon-space, then message and
    check.  Digit groups are maximal runs (a shorter greedy backtrack would
    place a digit where the regular expression requires a colon). -/
def matchAfterFile (rest : List Char) : Option (Nat × Nat × List Char × List Char × List Char) :=
  match expectColon rest with
  | none => none
  | some r1 =>
    if (takeDigits r1).1.isEmpty then none
    else
      match expectColon (takeDigits r1).2 with
      | none => none
      | some r3 =>
        if (takeDigits r3).1.isEmpty then none
        else
          match expectColonSpace (takeDigits r3).2 with
          | none => none
          | some r5 =>
            match takeSeverity r5 with
            | none => none
            | some (sev, r6) =>
              match expectColonSpace r6 with
              | none => none
              | some r7 =>
                (matchMsgCheck r7).map
                  (fun mc =>
                    (digitsToNat (takeDigits r1).1, digitsToNat (takeDigits r3).1,
                      sev, mc.1, mc.2))

/-- Captured groups of a diagnostic line, with line and column already put
    through int(); this is also the deduplication key tuple of source lines
    525-532. -/
structure WKey where
  file : List Char
  line : Nat
  column : Nat
  severity : List Char
  message : List Char
  check : List Char
deriving DecidableEq

/-- Embedding of re.match with the parser's diagnostic pattern (source line
    483): the file group is the longest nonempty newline-free prefix for which
    the remainder of the expression matches; returns the six captured groups
    with line and column already converted to numbers. -/
def parseLine (line : List Char) : Option WKey :=
  firstSomeDown
    (fun i =>
      if (line.take i).all (fun c => c != '\n') then
        (matchAfterFile (line.drop i)).map
          (fun g =>
            { file := line.take i, line := g.1, column := g.2.1,
              severity := g.2.2.1, message := g.2.2.2.1,
              check := g.2.2.2.2 })
      else none)
    line.length

/-- Diagnostic record built by the parser (source lines 544-552); the
    timestamp comes from the ambient clock, modeled as a parameter. -/
structure Warning where
  file : List Char
  line : Nat
  column : Nat
  severity : List Char
  message : List Char
  check : List Char
  timestamp : List Char
deriving DecidableEq

/-- Key of a collected warning. -/
def warningKey (w : Warning) : WKey :=
  { file := w.file, line := w.line, column := w.column, severity := w.severity,
    message := w.message, check := w.check }

/-- Embedding of reading a collections.defaultdict(int) entry. -/
def getCount (f : List Char) : List (List Char × Nat) → Nat
  | [] => 0
  | (g, n) :: rest => if g == f then n else getCount f rest

/-- Embedding of incrementing a collections.defaultdict(int) entry. -/
def bumpCount (f : List Char) : List (List Char × Nat) → List (List Char × Nat)
  | [] => [(f, 1)]
  | (g, n) :: rest => if g == f then (g, n + 1) :: rest else (g, n) :: bumpCount f rest

/-- Warning record constructed at source lines 544-552 from the captured
    groups and the current timestamp. -/
def mkWarning (key : WKey) (now : List Char) : Warning :=
  { file := key.file, line := key.line, column := key.column,
    severity := key.severity, message := key.message, check := key.check,
    timestamp := now }

/-- Mutable parser state: the seen-key set (insertion-ordered list with
    membership checks, embedding the Python set), the collected warnings in
    first-seen order, and the per-file tallies. -/
structure ParserState where
  warningsSet : List WKey
  warnings : List Warning
  fileWarnings : List (List Char × Nat)
deriving DecidableEq

/-- The state of a fresh report generator: nothing collected. -/
def emptyState : ParserState :=
  { warningsSet := [], warnings := [], fileWarnings := [] }

/-- Embedding of the per-line body of `_parse_clang_tidy_output` (source lines
    498-560): non-matching lines are ignored, excluded files are skipped when
    the pattern list is active, duplicate keys are skipped, and otherwise the
    warning is recorded and its file tally bumped (under the source's redundant
    re-check of the exclusion). -/
def processLine (patterns : List (List Char)) (now : List Char)
    (st : ParserState) (line : List Char) : ParserState :=
  match parseLine line with
  | none => st
  | some key =>
    if patterns ≠ [] ∧ shouldExclude key.file patterns = true then st
    else if key ∈ st.warningsSet then st
    else
      { warningsSet := st.warningsSet ++ [key]
        warnings := st.warnings ++ [mkWarning key now]
        fileWarnings :=
          if ¬(patterns ≠ [] ∧ shouldExclude key.file patterns = true) then
            bumpCount key.file st.fileWarnings
          else st.fileWarnings }

/-- Embedding of `_parse_clang_tidy_output`: split the output on newlines and
    process each line in order against the accumulated state. -/
def parseClangTidyOutput (patterns : List (List Char)) (now : List Char)
    (st : ParserState) (output : List Char) : ParserState :=
  (splitChar '\n' output).foldl (processLine patterns now) st

/-- Invariant of the collected diagnostics: the 6-tuple keys of the warning
    list are pairwise distinct, and every collected key is in the seen set. -/
def StateInv (st : ParserState) : Prop :=
  (st.warnings.map warningKey).Nodup ∧
  ∀ w ∈ st.warnings, warningKey w ∈ st.warningsSet

/-- Shape described by the parser's fixed line grammar: the line decomposes
    as file, colon, line digits, colon, column digits, colon-space, severity,
    colon-space, message, space-open-bracket, check, close-bracket, and then
    arbitrary trailing text; file, message and check are nonempty and free of
    newlines, both digit groups are nonempty, and the severity is one of the
    three recognized words. -/
def DiagLineShape (l : List Char) (k : WKey) : Prop :=
  ∃ d1 d2 rest,
    l = k.file ++ (':' :: (d1 ++ (':' :: (d2 ++ (':' :: ' ' :: (k.severity ++ (':' :: ' ' :: (k.message ++ (' ' :: '[' :: (k.check ++ (']' :: rest))))))))))) ∧
    k.file ≠ [] ∧ (∀ c ∈ k.file, c ≠ '\n') ∧
    d1 ≠ [] ∧ (∀ c ∈ d1, c.isDigit = true) ∧ digitsToNat d1 = k.line ∧
    d2 ≠ [] ∧ (∀ c ∈ d2, c.isDigit = true) ∧ digitsToNat d2 = k.column ∧
    (k.severity = ("warning").data ∨ k.severity = ("error").data ∨
      k.severity = ("note").data) ∧
    k.message ≠ [] ∧ (∀ c ∈ k.message, c ≠ '\n') ∧
    k.check ≠ [] ∧ (∀ c ∈ k.check, c ≠ '\n')

/-- One entry of compile_commands.json, restricted to the fields the loader
    reads. -/
structure CompileCommand where
  file : List Char
  directory : Option (List Char)

/-- Filesystem abstraction for `_load_compile_commands`: whether
    compile_commands.json exists in the build directory, and its entries. -/
structure BuildDirFS where
  compileCommandsExists : Bool
  commands : List CompileCommand

/-- Result of a loader run: either the list of files to check, or a process
    abort with an exit status. -/
inductive LoadResult (α : Type) where
  | ok (a : α)
  | exitWith (code : Nat)
deriving BEq

/-- Embedding of posixpath.isabs. -/
def isAbsL (p : List Char) : Bool :=
  (['/'] : List Char).isPrefixOf p

/-- Embedding of posixpath.join for two components as used by the loader. -/
def joinPathL (d f : List Char) : List Char :=
  if isAbsL f then f
  else if d == [] || endsWithL ['/'] d then d ++ f
  else d ++ '/' :: f

/-- Path resolution applied to each entry (source lines 222-228): join a
    relative file onto the recorded directory, then normalize. -/
def resolveEntry (cmd : CompileCommand) : List Char :=
  let fp :=
    match cmd.directory with
    | some d => if isAbsL cmd.file then cmd.file else joinPathL d cmd.file
    | none => cmd.file
  posixNormpath fp

/-- Embedding of `_load_compile_commands` (source lines 196-263): a missing
    compile_commands.json aborts the process with exit status 1; otherwise the
    entries are resolved and the excluded ones filtered out, yielding the
    files to check. -/
def loadCompileCommands (fs : BuildDirFS) (excludePatterns : List (List Char)) :
    LoadResult (List (List Char)) :=
  if fs.compileCommandsExists then
    LoadResult.ok
      (((fs.commands.map resolveEntry)).filter
        (fun f => !shouldExclude f excludePatterns))
  else LoadResult.exitWith 1

/-! ### Theorems about the path-exclusion matcher -/

/-- C1 counterexample: with no double star in the pattern the matcher uses
    Python fnmatch, whose star crosses slashes, so `src/*.cpp` does match
    `src/sub/file.cpp`; and a slash-free pattern is tested against the
    basename only when it contains a star, so the literal pattern `file.cpp`
    does not match `dir/file.cpp`.  Both facts contradict the claim. -/
theorem no_doublestar_single_level_refuted :
    shouldExcludeWithPattern (("src/sub/file.cpp").data) (("src/*.cpp").data) = true ∧
    shouldExcludeWithPattern (("dir/file.cpp").data) (("file.cpp").data) = false := by
  constructor <;> decide

/-- C1 amended: for every path and pattern without a double star, the matcher
    returns the disjunction of a whole-path fnmatch (star and question mark
    may match any characters, slashes included), a basename fnmatch applied
    only when the pattern contains a star and no slash, and a one-level
    directory test for patterns ending in slash-star; in particular
    `src/*.cpp` matches `src/sub/file.cpp`. -/
theorem no_doublestar_fnmatch :
    (∀ path pat, containsSub ['*', '*'] (normalizePattern pat) = false →
      shouldExcludeWithPattern path pat =
        (fnmatchL (normalizeMatchPath path) (normalizePattern pat) ||
          (containsSub ['*'] (normalizePattern pat) &&
            !containsSub ['/'] (normalizePattern pat) &&
            fnmatchL (basenameL (normalizeMatchPath path)) (normalizePattern pat)) ||
          (endsWithL ['/', '*'] (normalizePattern pat) &&
            (List.range (splitChar '/' (normalizeMatchPath path)).length).any fun i =>
              fnmatchL (joinSlash ((splitChar '/' (normalizeMatchPath path)).take (i + 1)))
                ((normalizePattern pat).take ((normalizePattern pat).length - 2))))) ∧
    shouldExcludeWithPattern (("src/sub/file.cpp").data) (("src/*.cpp").data) = true := by
  refine ⟨fun path pat h => ?_, by decide⟩
  simp only [shouldExcludeWithPattern]
  simp [h]

/-- Witness for the amended C1, at the slash-free starred pattern `*.cpp`
    against `a/b.cpp`. -/
theorem no_doublestar_fnmatch_witness :
    shouldExcludeWithPattern (("a/b.cpp").data) (("*.cpp").data) =
      (fnmatchL (normalizeMatchPath (("a/b.cpp").data)) (normalizePattern (("*.cpp").data)) ||
        (containsSub ['*'] (normalizePattern (("*.cpp").data)) &&
          !containsSub ['/'] (normalizePattern (("*.cpp").data)) &&
          fnmatchL (basenameL (normalizeMatchPath (("a/b.cpp").data)))
            (normalizePattern (("*.cpp").data))) ||
        (endsWithL ['/', '*'] (normalizePattern (("*.cpp").data)) &&
          (List.range (splitChar '/' (normalizeMatchPath (("a/b.cpp").data))).length).any fun i =>
            fnmatchL
              (joinSlash ((splitChar '/' (normalizeMatchPath (("a/b.cpp").data))).take (i + 1)))
              ((normalizePattern (("*.cpp").data)).take
                ((normalizePattern (("*.cpp").data)).length - 2)))) :=
  no_doublestar_fnmatch.1 (("a/b.cpp").data) (("*.cpp").data) (by decide)

/-- C2 counterexample: the infix double-star pattern `a/**/b` does not match
    the path `a/x/b`, because the code tests the remaining suffix against the
    bare tail `b` rather than `*b`. -/
theorem infix_doublestar_refuted :
    shouldExcludeWithPattern (("a/x/b").data) (("a/**/b").data) = false := by
  decide

/-- C2 amended: for a pattern whose sole double star is infix, the matcher
    splits on the double star into head and tail (slashes trimmed); when the
    head is nonempty the path matches iff some proper prefix of the path ends
    with the head and either the tail is empty or the rest of the path, with
    leading slashes stripped, fnmatches the bare tail (not star-tail); when
    the head is empty the whole path must fnmatch star-tail.  In particular
    `a/**/b` matches `a/b` but not `a/x/b`. -/
theorem infix_doublestar_semantics :
    (∀ path pat,
      containsSub ['*', '*'] (normalizePattern pat) = true →
      normalizePattern pat ≠ ['*', '*'] →
      (['*', '*', '/'] : List Char).isPrefixOf (normalizePattern pat) = false →
      endsWithL ['/', '*', '*'] (normalizePattern pat) = false →
      (splitSS (normalizePattern pat)).length = 2 →
      (shouldExcludeWithPattern path pat = true ↔
        (let np := normalizeMatchPath path
         let startPat := rstripSlash ((splitSS (normalizePattern pat)).getD 0 [])
         let endPat := lstripSlash ((splitSS (normalizePattern pat)).getD 1 [])
         if startPat = [] then fnmatchL np ('*' :: endPat) = true
         else ∃ i, i < np.length ∧ endsWithL startPat (np.take i) = true ∧
           (endPat = [] ∨ fnmatchL (lstripSlash (np.drop i)) endPat = true)))) ∧
    shouldExcludeWithPattern (("a/b").data) (("a/**/b").data) = true := by
  refine ⟨fun path pat h1 h2 h3 h4 h5 => ?_, by decide⟩
  have h2b : (normalizePattern pat == ['*', '*']) = false := by
    simpa using h2
  have h5b : ((splitSS (normalizePattern pat)).length == 2) = true := by
    simpa using h5
  simp only [shouldExcludeWithPattern]
  simp only [h1, h2b, h3, h4, h5b, if_true, if_false, Bool.false_eq_true,
    Bool.true_eq_false, ite_true, ite_false]
  by_cases hs : rstripSlash ((splitSS (normalizePattern pat)).getD 0 []) = []
  · simp [hs]
  · have hs2 : (rstripSlash ((splitSS (normalizePattern pat)).getD 0 [])).isEmpty = false := by
      simpa [List.isEmpty_iff] using hs
    simp only [hs2, Bool.not_false, if_true, ite_true]
    rw [if_neg hs]
    simp only [List.any_eq_true, List.mem_range, Bool.and_eq_true, Bool.or_eq_true]
    constructor
    · rintro ⟨i, hi, he, hrest⟩
      exact ⟨i, hi, he, by
        rcases hrest with h | h
        · exact Or.inl (by simpa [List.isEmpty_iff] using h)
        · exact Or.inr h⟩
    · rintro ⟨i, hi, he, hrest⟩
      exact ⟨i, hi, he, by
        rcases hrest with h | h
        · exact Or.inl (by simpa [List.isEmpty_iff] using h)
        · exact Or.inr h⟩

/-- Witness for the amended C2, at pattern `a/**/b` against path `a/b`. -/
theorem infix_doublestar_semantics_witness :
    shouldExcludeWithPattern (("a/b").data) (("a/**/b").data) = true ↔
      (let np := normalizeMatchPath (("a/b").data)
       let startPat := rstripSlash ((splitSS (normalizePattern (("a/**/b").data))).getD 0 [])
       let endPat := lstripSlash ((splitSS (normalizePattern (("a/**/b").data))).getD 1 [])
       if startPat = [] then fnmatchL np ('*' :: endPat) = true
       else ∃ i, i < np.length ∧ endsWithL startPat (np.take i) = true ∧
         (endPat = [] ∨ fnmatchL (lstripSlash (np.drop i)) endPat = true)) :=
  infix_doublestar_semantics.1 (("a/b").data) (("a/**/b").data)
    (by decide) (by decide) (by decide) (by decide) (by decide)

/-- C4: the double-star-slash prefixed pattern from the spec's example:
    `**/test/**` does not exclude `foo/bar.cpp` and does exclude
    `foo/test/bar.cpp`. -/
theorem prefix_doublestar_examples :
    isExcluded ("foo/bar.cpp") [("**/test/**")] = false ∧
    isExcluded ("foo/test/bar.cpp") [("**/test/**")] = true := by
  constructor <;> decide

/-- C10: a pattern containing a double star that is not the whole pattern,
    not a leading double-star-slash, not a trailing slash-double-star, and
    splits on the double star into three or more pieces matches no path at
    all. -/
theorem multi_doublestar_matches_nothing (path pat : List Char)
    (h1 : containsSub ['*', '*'] (normalizePattern pat) = true)
    (h2 : normalizePattern pat ≠ ['*', '*'])
    (h3 : (['*', '*', '/'] : List Char).isPrefixOf (normalizePattern pat) = false)
    (h4 : endsWithL ['/', '*', '*'] (normalizePattern pat) = false)
    (h5 : 3 ≤ (splitSS (normalizePattern pat)).length) :
    shouldExcludeWithPattern path pat = false := by
  have h2b : (normalizePattern pat == ['*', '*']) = false := by
    simpa using h2
  have h5b : ((splitSS (normalizePattern pat)).length == 2) = false := by
    simp only [beq_eq_false_iff_ne, ne_eq]
    omega
  simp only [shouldExcludeWithPattern]
  simp [h1, h2b, h3, h4, h5b]

/-- Witness for C10, at pattern `a/**/b/**/c` against path `a/x/b/y/c` (a
    path that a conventional recursive glob would match). -/
theorem multi_doublestar_matches_nothing_witness :
    shouldExcludeWithPattern (("a/x/b/y/c").data) (("a/**/b/**/c").data) = false :=
  multi_doublestar_matches_nothing _ _ (by decide) (by decide) (by decide)
    (by decide) (by decide)

/-! ### Helper lemmas for the directory-pattern theorem -/

theorem beq_eq_decideEq {α : Type} [DecidableEq α] [BEq α] [LawfulBEq α] (a b : α) :
    (a == b) = decide (a = b) := by
  by_cases h : a = b <;> simp [h]

theorem matchGlobAux_literal (p : List Char)
    (hp : ∀ c ∈ p, c ≠ '*' ∧ c ≠ '?' ∧ c ≠ '[') :
    ∀ (s : List Char) (fuel : Nat), p.length < fuel →
      matchGlobAux fuel p s = decide (p = s) := by
  induction p with
  | nil =>
    intro s fuel hf
    match fuel, hf with
    | fuel + 1, _ => cases s <;> simp [matchGlobAux]
  | cons c ps ih =>
    intro s fuel hf
    match fuel, hf with
    | fuel + 1, hf =>
      have hc := hp c (by simp)
      have e1 : (c == '*') = false := by simpa using hc.1
      have e2 : (c == '?') = false := by simpa using hc.2.1
      have e3 : (c == '[') = false := by simpa using hc.2.2
      have hps : ∀ x ∈ ps, x ≠ '*' ∧ x ≠ '?' ∧ x ≠ '[' := fun x hx => hp x (by simp [hx])
      have hflen : ps.length < fuel := by
        simp only [List.length_cons] at hf
        omega
      simp only [matchGlobAux, e1, e2, e3, Bool.false_eq_true, if_false]
      cases s with
      | nil => simp
      | cons d s2 =>
        show (c == d && matchGlobAux fuel ps s2) = decide (c :: ps = d :: s2)
        rw [ih hps s2 fuel hflen, beq_eq_decideEq]
        simp [List.cons.injEq, Bool.decide_and]

/-- A literal pattern (no star, question mark or open bracket) fnmatches
    exactly itself. -/
theorem fnmatchL_literal (s p : List Char)
    (hp : ∀ c ∈ p, c ≠ '*' ∧ c ≠ '?' ∧ c ≠ '[') :
    fnmatchL s p = decide (p = s) := by
  unfold fnmatchL
  exact matchGlobAux_literal p hp s _ (by omega)

theorem containsSub_append_right (n a b : List Char) (h : containsSub n b = true) :
    containsSub n (a ++ b) = true := by
  induction a with
  | nil => simpa using h
  | cons c cs ih => simp [containsSub, ih]

theorem collapseSlashes_cons_of_ne (c : Char) (hc : c ≠ '/') (l : List Char) :
    collapseSlashes (c :: l) = c :: collapseSlashes l := by
  cases l with
  | nil => simp [collapseSlashes]
  | cons d r =>
    have : (c == '/') = false := by simpa using hc
    simp [collapseSlashes, this]

theorem collapseSlashes_append_noslash (dir l : List Char)
    (h : ∀ c ∈ dir, c ≠ '/') :
    collapseSlashes (dir ++ l) = dir ++ collapseSlashes l := by
  induction dir with
  | nil => rfl
  | cons c cs ih =>
    have hc : c ≠ '/' := h c (by simp)
    have hcs : ∀ x ∈ cs, x ≠ '/' := fun x hx => h x (by simp [hx])
    simp only [List.cons_append, collapseSlashes_cons_of_ne c hc, ih hcs]

theorem replaceChar_eq_self (old new : Char) (l : List Char)
    (h : ∀ c ∈ l, c ≠ old) :
    replaceChar old new l = l := by
  induction l with
  | nil => rfl
  | cons c cs ih =>
    have hc : (c == old) = false := by simpa using h c (by simp)
    have hcs := ih (fun x hx => h x (by simp [hx]))
    simp only [replaceChar, List.map_cons] at hcs ⊢
    rw [if_neg (by simp [hc])]
    exact congrArg (c :: ·) hcs

/-- Pattern normalization is the identity on a slash-double-star pattern built
    from a directory name free of slashes and backslashes (other than the
    bare dot). -/
theorem normalizePattern_dir_doublestar (dir : List Char)
    (h : ∀ c ∈ dir, c ≠ '/' ∧ c ≠ '\\')
    (hdot : dir ≠ ['.']) :
    normalizePattern (dir ++ ('/' :: '*' :: '*' :: [])) =
      dir ++ ('/' :: '*' :: '*' :: []) := by
  unfold normalizePattern
  rw [replaceChar_eq_self _ _ _ (by
    intro c hc
    rcases List.mem_append.mp hc with h1 | h1
    · exact (h c h1).2
    · simp only [List.mem_cons, List.not_mem_nil] at h1
      rcases h1 with rfl | h1
      · decide
      · rcases h1 with rfl | h1
        · decide
        · rcases h1 with rfl | h1
          · decide
          · exact absurd h1 (by simp))]
  have hpre : (['.', '/'] : List Char).isPrefixOf (dir ++ ('/' :: '*' :: '*' :: [])) = false := by
    cases dir with
    | nil => decide
    | cons c cs =>
      simp only [List.cons_append, List.isPrefixOf, Bool.and_eq_false_iff]
      by_cases hcdot : c = '.'
      · subst hcdot
        cases cs with
        | nil => exact absurd rfl hdot
        | cons c2 cs2 =>
          right
          simp only [List.cons_append, List.isPrefixOf, Bool.and_eq_false_iff]
          left
          simpa using fun hq => (h c2 (by simp)).1 hq.symm
      · left
        simpa using fun hq => hcdot hq.symm
  rw [stripDotSlash, if_neg (by simp [hpre])]
  rw [collapseSlashes_append_noslash _ _ (fun c hc => (h c hc).1)]
  have hc3 : collapseSlashes ('/' :: '*' :: '*' :: []) = ('/' :: '*' :: '*' :: []) := by
    decide
  rw [hc3]

/-! ### Claim C3: slash-double-star directory patterns -/

/-- C3: a slash-double-star pattern with a literal directory name excludes
    every path having that name as a complete component of the normalized
    path, and the spec's four concrete examples behave as stated. -/
theorem dir_doublestar_excludes :
    (∀ path dir,
      (∀ c ∈ dir, c ≠ '*' ∧ c ≠ '?' ∧ c ≠ '[' ∧ c ≠ '/' ∧ c ≠ '\\') →
      dir ≠ [] → dir ≠ ['.'] →
      dir ∈ splitChar '/' (normalizeMatchPath path) →
      shouldExclude path [dir ++ ('/' :: '*' :: '*' :: [])] = true) ∧
    isExcluded ("src/external/lib/file.cpp") [("external/**")] = true ∧
    isExcluded ("external/file.cpp") [("external/**")] = true ∧
    isExcluded ("a/external/b/file.cpp") [("external/**")] = true ∧
    isExcluded ("externally/file.cpp") [("external/**")] = false := by
  refine ⟨fun path dir hlit hne hdot hmem => ?_, by decide, by decide, by decide, by decide⟩
  have hnorm := normalizePattern_dir_doublestar dir
    (fun c hc => ⟨(hlit c hc).2.2.2.1, (hlit c hc).2.2.2.2⟩) hdot
  have hcontains : containsSub ['*', '*'] (dir ++ ('/' :: '*' :: '*' :: [])) = true :=
    containsSub_append_right _ _ _ (by decide)
  have hne2 : (dir ++ ('/' :: '*' :: '*' :: []) == ['*', '*']) = false := by
    rw [beq_eq_decideEq]
    simp only [decide_eq_false_iff_not]
    intro hq
    have := congrArg List.length hq
    simp at this
  have hpre : (['*', '*', '/'] : List Char).isPrefixOf (dir ++ ('/' :: '*' :: '*' :: [])) = false := by
    cases dir with
    | nil => exact absurd rfl hne
    | cons c cs =>
      simp only [List.cons_append, List.isPrefixOf, Bool.and_eq_false_iff]
      left
      simpa using fun hq => (hlit c (by simp)).1 hq.symm
  have hsuf : endsWithL ['/', '*', '*'] (dir ++ ('/' :: '*' :: '*' :: [])) = true := by
    unfold endsWithL
    rw [List.reverse_append]
    exact List.isPrefixOf_iff_prefix.mpr (by exact List.prefix_append _ _)
  have htake : (dir ++ ('/' :: '*' :: '*' :: [])).take
      ((dir ++ ('/' :: '*' :: '*' :: [])).length - 3) = dir := by
    have hl : (dir ++ ('/' :: '*' :: '*' :: [])).length - 3 = dir.length := by
      simp
    rw [hl, List.take_left]
  have hany : ((splitChar '/' (normalizeMatchPath path)).any fun part =>
      fnmatchL part dir) = true := by
    rw [List.any_eq_true]
    exact ⟨dir, hmem, by rw [fnmatchL_literal _ _
      (fun c hc => ⟨(hlit c hc).1, (hlit c hc).2.1, (hlit c hc).2.2.1⟩)]; simp⟩
  simp only [shouldExclude, List.any_cons, List.any_nil, Bool.or_false]
  simp only [shouldExcludeWithPattern, hnorm, hcontains, hne2, hpre, hsuf, htake,
    if_true, if_false, Bool.false_eq_true, Bool.true_eq_false, ite_true, ite_false]
  simp [hany]

/-- Witness for C3, at directory `external` and path
    `src/external/lib/file.cpp`. -/
theorem dir_doublestar_excludes_witness :
    shouldExclude (("src/external/lib/file.cpp").data)
      [("external").data ++ ('/' :: '*' :: '*' :: [])] = true :=
  dir_doublestar_excludes.1 (("src/external/lib/file.cpp").data) (("external").data)
    (by decide) (by decide) (by decide) (by decide)

/-! ### Claim C9: missing compilation database is fatal -/

/-- C9: when compile_commands.json is absent from the build directory the
    loader aborts the process with exit status 1, which is nonzero. -/
theorem missing_compile_commands_fatal (fs : BuildDirFS) (pats : List (List Char))
    (h : fs.compileCommandsExists = false) :
    loadCompileCommands fs pats = LoadResult.exitWith 1 ∧ (1 : Nat) ≠ 0 := by
  refine ⟨?_, by decide⟩
  simp [loadCompileCommands, h]

/-- Witness for C9, at an empty build directory with no exclusion patterns. -/
theorem missing_compile_commands_fatal_witness :
    loadCompileCommands { compileCommandsExists := false, commands := [] } [] =
      LoadResult.exitWith 1 ∧ (1 : Nat) ≠ 0 :=
  missing_compile_commands_fatal _ _ rfl

/-! ### Helper lemmas for the parser state -/

theorem warningKey_mkWarning (key : WKey) (now : List Char) :
    warningKey (mkWarning key now) = key := rfl

/-- Each line leaves the state unchanged or records a fresh, non-excluded key. -/
theorem processLine_cases (pats : List (List Char)) (now : List Char)
    (st : ParserState) (l : List Char) :
    processLine pats now st l = st ∨
    ∃ key, parseLine l = some key ∧
      ¬(pats ≠ [] ∧ shouldExclude key.file pats = true) ∧
      key ∉ st.warningsSet ∧
      processLine pats now st l =
        { warningsSet := st.warningsSet ++ [key]
          warnings := st.warnings ++ [mkWarning key now]
          fileWarnings := bumpCount key.file st.fileWarnings } := by
  unfold processLine
  split
  · exact Or.inl rfl
  · rename_i key hpl
    by_cases hex : pats ≠ [] ∧ shouldExclude key.file pats = true
    · exact Or.inl (by rw [if_pos hex])
    · by_cases hmem : key ∈ st.warningsSet
      · exact Or.inl (by rw [if_neg hex, if_pos hmem])
      · refine Or.inr ⟨key, hpl, hex, hmem, ?_⟩
        rw [if_neg hex, if_neg hmem, if_pos hex]

theorem foldl_set_mono (pats : List (List Char)) (now : List Char) :
    ∀ (ls : List (List Char)) (st : ParserState) (k : WKey),
      k ∈ st.warningsSet →
      k ∈ (ls.foldl (processLine pats now) st).warningsSet := by
  intro ls
  induction ls with
  | nil => intro st k h; exact h
  | cons a as ih =>
    intro st k h
    simp only [List.foldl_cons]
    apply ih
    rcases processLine_cases pats now st a with heq | ⟨key, _, _, _, heq⟩
    · rw [heq]; exact h
    · rw [heq]; exact List.mem_append_left _ h

/-- A parsed, non-excluded key of a line is in the set right after that line
    is processed. -/
theorem key_in_processLine (pats : List (List Char)) (now : List Char)
    (st : ParserState) (l : List Char) (key : WKey)
    (hpl : parseLine l = some key)
    (hex : ¬(pats ≠ [] ∧ shouldExclude key.file pats = true)) :
    key ∈ (processLine pats now st l).warningsSet := by
  unfold processLine
  split
  · rename_i hnone
    rw [hpl] at hnone
    cases hnone
  · rename_i key2 hpl2
    rw [hpl] at hpl2
    injection hpl2 with hkey
    subst hkey
    rw [if_neg hex]
    by_cases hk : key ∈ st.warningsSet
    · rw [if_pos hk]; exact hk
    · rw [if_neg hk]; simp

/-- Every parsed, non-excluded key of a processed line ends up in the set. -/
theorem key_in_fold (pats : List (List Char)) (now : List Char) :
    ∀ (ls : List (List Char)) (st : ParserState) (l : List Char) (key : WKey),
      l ∈ ls → parseLine l = some key →
      ¬(pats ≠ [] ∧ shouldExclude key.file pats = true) →
      key ∈ (ls.foldl (processLine pats now) st).warningsSet := by
  intro ls
  induction ls with
  | nil => intro st l key h; cases h
  | cons a as ih =>
    intro st l key hmem hpl hex
    simp only [List.foldl_cons]
    rcases List.mem_cons.mp hmem with rfl | hmem2
    · exact foldl_set_mono pats now as _ key
        (key_in_processLine pats now st l key hpl hex)
    · exact ih _ _ _ hmem2 hpl hex

/-- A line is a no-op whenever every key it could contribute is already in
    the set. -/
theorem processLine_inert (pats : List (List Char)) (now : List Char)
    (st : ParserState) (l : List Char)
    (h : ∀ key, parseLine l = some key →
      ¬(pats ≠ [] ∧ shouldExclude key.file pats = true) →
      key ∈ st.warningsSet) :
    processLine pats now st l = st := by
  unfold processLine
  split
  · rfl
  · rename_i key hpl
    by_cases hex : pats ≠ [] ∧ shouldExclude key.file pats = true
    · rw [if_pos hex]
    · rw [if_neg hex, if_pos (h key hpl hex)]

theorem foldl_inert (pats : List (List Char)) (now : List Char) :
    ∀ (ls : List (List Char)) (st : ParserState),
      (∀ l ∈ ls, ∀ key, parseLine l = some key →
        ¬(pats ≠ [] ∧ shouldExclude key.file pats = true) →
        key ∈ st.warningsSet) →
      ls.foldl (processLine pats now) st = st := by
  intro ls
  induction ls with
  | nil => intro st _; rfl
  | cons a as ih =>
    intro st h
    have ha : processLine pats now st a = st :=
      processLine_inert pats now st a (h a (by simp))
    simp only [List.foldl_cons, ha]
    exact ih st (fun l hl => h l (by simp [hl]))

/-! ### Claim C5: parsing is idempotent -/

/-- C5: parsing the same analyzer output a second time into the accumulated
    state adds nothing: the resulting state (key set, warning collection and
    per-file tallies) is identical, whatever timestamps the two passes saw. -/
theorem parse_idempotent (pats : List (List Char)) (now1 now2 : List Char)
    (st : ParserState) (out : List Char) :
    parseClangTidyOutput pats now2 (parseClangTidyOutput pats now1 st out) out =
      parseClangTidyOutput pats now1 st out := by
  unfold parseClangTidyOutput
  apply foldl_inert
  intro l hl key hpl hex
  exact key_in_fold pats now1 _ st l key hl hpl hex

/-! ### Claim C6: no duplicate keys ever coexist -/

theorem processLine_inv (pats : List (List Char)) (now : List Char)
    (st : ParserState) (l : List Char) (h : StateInv st) :
    StateInv (processLine pats now st l) := by
  rcases processLine_cases pats now st l with heq | ⟨key, _, _, hmem, heq⟩
  · rw [heq]; exact h
  · rw [heq]
    constructor
    · simp only [List.map_append, List.map_cons, List.map_nil, warningKey_mkWarning]
      rw [List.nodup_append]
      refine ⟨h.1, List.nodup_singleton _, ?_⟩
      intro x hx hx2
      simp only [List.mem_singleton] at hx2
      subst hx2
      rcases List.mem_map.mp hx with ⟨w, hw, hwk⟩
      exact hmem (hwk ▸ h.2 w hw)
    · intro w hw
      rcases List.mem_append.mp hw with hw1 | hw2
      · exact List.mem_append_left _ (h.2 w hw1)
      · simp only [List.mem_singleton] at hw2
        subst hw2
        rw [warningKey_mkWarning]
        simp

/-- C6: every parser invocation preserves the no-duplicate invariant, so
    across any number of analyzer invocations no two collected diagnostics
    ever share the same (file, line, column, severity, message, check)
    6-tuple. -/
theorem parser_nodup_invariant (pats : List (List Char)) (now : List Char)
    (st : ParserState) (out : List Char) (h : StateInv st) :
    StateInv (parseClangTidyOutput pats now st out) := by
  unfold parseClangTidyOutput
  generalize splitChar '\n' out = ls
  induction ls generalizing st with
  | nil => exact h
  | cons a as ih =>
    simp only [List.foldl_cons]
    exact ih _ (processLine_inv pats now st a h)

/-- Witness for C6: the invariant holds for the empty state and is carried
    through a parse of output that repeats the same diagnostic line. -/
theorem parser_nodup_invariant_witness :
    StateInv (parseClangTidyOutput [] []
      (parseClangTidyOutput [] [] emptyState
        (("a:1:2: warning: m [k]\na:1:2: warning: m [k]").data))
      (("a:1:2: warning: m [k]").data)) :=
  parser_nodup_invariant _ _ _ _
    (parser_nodup_invariant _ _ _ _ ⟨by simp [emptyState], by simp [emptyState]⟩)

/-! ### Claim C7: excluded files are dropped before collection -/

theorem getCount_bump_ne (f g : List Char) (hne : g ≠ f) :
    ∀ m : List (List Char × Nat), getCount f (bumpCount g m) = getCount f m := by
  have hge : (g == f) = false := by simpa using hne
  intro m
  induction m with
  | nil => simp [bumpCount, getCount, hge]
  | cons p rest ih =>
    obtain ⟨h0, n⟩ := p
    by_cases hh : h0 = g
    · subst hh
      simp [bumpCount, getCount, hge]
    · have hh2 : (h0 == g) = false := by simpa using hh
      simp only [bumpCount, hh2, Bool.false_eq_true, if_false]
      by_cases hf : h0 = f
      · subst hf
        simp [getCount]
      · have hf2 : (h0 == f) = false := by simpa using hf
        simp [getCount, hf2, ih]

theorem processLine_excluded_frozen (pats : List (List Char)) (now : List Char)
    (st : ParserState) (l : List Char) (f : List Char)
    (hne : pats ≠ []) (hex : shouldExclude f pats = true) :
    ((processLine pats now st l).warnings.filter (fun w => w.file == f) =
      st.warnings.filter (fun w => w.file == f)) ∧
    getCount f (processLine pats now st l).fileWarnings =
      getCount f st.fileWarnings := by
  rcases processLine_cases pats now st l with heq | ⟨key, _, hexk, _, heq⟩
  · rw [heq]; exact ⟨rfl, rfl⟩
  · have hkf : key.file ≠ f := by
      intro hq
      exact hexk ⟨hne, hq ▸ hex⟩
    have hkf2 : (key.file == f) = false := by simpa using hkf
    rw [heq]
    refine ⟨?_, getCount_bump_ne f key.file hkf st.fileWarnings⟩
    simp only [List.filter_append]
    have hone : List.filter (fun w => w.file == f) [mkWarning key now] = [] := by
      simp [List.filter, mkWarning, hkf2]
    rw [hone, List.append_nil]

/-- C7: for an active (nonempty) pattern list, a diagnostic whose file is
    excluded by the matcher never enters the collection during parsing and
    its per-file tally never moves, however many lines are processed. -/
theorem excluded_never_collected (pats : List (List Char)) (now : List Char)
    (st : ParserState) (out : List Char) (f : List Char)
    (hne : pats ≠ []) (hex : shouldExclude f pats = true) :
    ((parseClangTidyOutput pats now st out).warnings.filter (fun w => w.file == f) =
      st.warnings.filter (fun w => w.file == f)) ∧
    getCount f (parseClangTidyOutput pats now st out).fileWarnings =
      getCount f st.fileWarnings := by
  unfold parseClangTidyOutput
  generalize splitChar '\n' out = ls
  induction ls generalizing st with
  | nil => exact ⟨rfl, rfl⟩
  | cons a as ih =>
    simp only [List.foldl_cons]
    have h1 := processLine_excluded_frozen pats now st a f hne hex
    have h2 := ih (processLine pats now st a)
    exact ⟨h2.1.trans h1.1, h2.2.trans h1.2⟩

/-- Witness for C7: pattern list `external/**` against a raw output line for
    the excluded file `external/a.cpp`. -/
theorem excluded_never_collected_witness :
    ((parseClangTidyOutput [("external/**").data] [] emptyState
        (("external/a.cpp:1:2: warning: w [k]").data)).warnings.filter
      (fun w => w.file == ("external/a.cpp").data) =
      emptyState.warnings.filter (fun w => w.file == ("external/a.cpp").data)) ∧
    getCount (("external/a.cpp").data)
        (parseClangTidyOutput [("external/**").data] [] emptyState
          (("external/a.cpp:1:2: warning: w [k]").data)).fileWarnings =
      getCount (("external/a.cpp").data) emptyState.fileWarnings :=
  excluded_never_collected _ _ _ _ _ (by decide) (by decide)

/-! ### Helper lemmas for the diagnostic line grammar -/

theorem firstSomeDown_eq_some {α : Type} (f : Nat → Option α) :
    ∀ (n : Nat) (a : α), firstSomeDown f n = some a →
      ∃ i, 1 ≤ i ∧ i ≤ n ∧ f i = some a := by
  intro n
  induction n with
  | zero => intro a h; simp [firstSomeDown] at h
  | succ m ih =>
    intro a h
    cases hf : f (m + 1) with
    | some b =>
      simp only [firstSomeDown, hf] at h
      exact ⟨m + 1, by omega, Nat.le_refl _, by rw [hf, h]⟩
    | none =>
      simp only [firstSomeDown, hf] at h
      rcases ih a h with ⟨i, h1, h2, h3⟩
      exact ⟨i, h1, by omega, h3⟩

theorem firstSomeDown_isSome {α : Type} (f : Nat → Option α) :
    ∀ (n i : Nat), 1 ≤ i → i ≤ n → (f i).isSome = true →
      (firstSomeDown f n).isSome = true := by
  intro n
  induction n with
  | zero => intro i h1 h2 _; omega
  | succ m ih =>
    intro i h1 h2 hs
    cases hf : f (m + 1) with
    | some b => simp [firstSomeDown, hf]
    | none =>
      have hi : i ≤ m := by
        by_cases he : i = m + 1
        · rw [he, hf] at hs
          simp at hs
        · omega
      simp only [firstSomeDown, hf]
      exact ih i h1 hi hs

theorem takeDigits_spec : ∀ r : List Char,
    r = (takeDigits r).1 ++ (takeDigits r).2 ∧
    ∀ c ∈ (takeDigits r).1, c.isDigit = true := by
  intro r
  induction r with
  | nil => simp [takeDigits]
  | cons c rest ih =>
    by_cases hc : c.isDigit
    · simp only [takeDigits, hc, if_true, ite_true]
      refine ⟨?_, ?_⟩
      · simpa using congrArg (c :: ·) ih.1
      · intro x hx
        rcases List.mem_cons.mp hx with rfl | hx2
        · exact hc
        · exact ih.2 x hx2
    · have hc2 : c.isDigit = false := by simpa using hc
      simp [takeDigits, hc2]

theorem takeDigits_append (d : List Char) (hd : ∀ c ∈ d, c.isDigit = true)
    (c : Char) (hc : c.isDigit = false) (r : List Char) :
    takeDigits (d ++ c :: r) = (d, c :: r) := by
  induction d with
  | nil => simp [takeDigits, hc]
  | cons a as ih =>
    have ha : a.isDigit = true := hd a (by simp)
    have ih2 := ih (fun x hx => hd x (by simp [hx]))
    show takeDigits (a :: (as ++ c :: r)) = (a :: as, c :: r)
    simp [takeDigits, ha, ih2]

theorem isPrefixOf_cons_false (a b : Char) (hab : (a == b) = false)
    (as bs : List Char) : (a :: as).isPrefixOf (b :: bs) = false := by
  show ((a == b) && as.isPrefixOf bs) = false
  rw [hab]
  exact Bool.false_and _

theorem drop_length_append (l1 l2 : List Char) (n : Nat) (h : l1.length = n) :
    (l1 ++ l2).drop n = l2 := by
  rw [← h]
  exact List.drop_left _ _

theorem takeSeverity_spec (s sev r : List Char) (h : takeSeverity s = some (sev, r)) :
    s = sev ++ r ∧
    (sev = ("warning").data ∨ sev = ("error").data ∨ sev = ("note").data) := by
  unfold takeSeverity at h
  split_ifs at h with h1 h2 h3
  · injection h with hp
    injection hp with hsev hr
    subst hsev
    subst hr
    rcases List.isPrefixOf_iff_prefix.mp h1 with ⟨t, ht⟩
    have hdrop : s.drop 7 = t := by
      rw [← ht]
      exact drop_length_append _ _ _ (by decide)
    exact ⟨by rw [hdrop, ht], Or.inl rfl⟩
  · injection h with hp
    injection hp with hsev hr
    subst hsev
    subst hr
    rcases List.isPrefixOf_iff_prefix.mp h2 with ⟨t, ht⟩
    have hdrop : s.drop 5 = t := by
      rw [← ht]
      exact drop_length_append _ _ _ (by decide)
    exact ⟨by rw [hdrop, ht], Or.inr (Or.inl rfl)⟩
  · injection h with hp
    injection hp with hsev hr
    subst hsev
    subst hr
    rcases List.isPrefixOf_iff_prefix.mp h3 with ⟨t, ht⟩
    have hdrop : s.drop 4 = t := by
      rw [← ht]
      exact drop_length_append _ _ _ (by decide)
    exact ⟨by rw [hdrop, ht], Or.inr (Or.inr rfl)⟩

theorem takeSeverity_append (sev r : List Char)
    (h : sev = ("warning").data ∨ sev = ("error").data ∨ sev = ("note").data) :
    takeSeverity (sev ++ r) = some (sev, r) := by
  rcases h with rfl | rfl | rfl
  · unfold takeSeverity
    rw [if_pos (List.isPrefixOf_iff_prefix.mpr (List.prefix_append _ _))]
    have : (("warning").data ++ r).drop 7 = r := drop_length_append _ _ _ (by decide)
    rw [this]
  · have h1 : ("warning").data.isPrefixOf (("error").data ++ r) = false := by
      show (('w' : Char) :: ("arning").data).isPrefixOf
        (('e' : Char) :: (("rror").data ++ r)) = false
      exact isPrefixOf_cons_false _ _ (by decide) _ _
    unfold takeSeverity
    rw [if_neg (by simp [h1]),
      if_pos (List.isPrefixOf_iff_prefix.mpr (List.prefix_append _ _))]
    have : (("error").data ++ r).drop 5 = r := drop_length_append _ _ _ (by decide)
    rw [this]
  · have h1 : ("warning").data.isPrefixOf (("note").data ++ r) = false := by
      show (('w' : Char) :: ("arning").data).isPrefixOf
        (('n' : Char) :: (("ote").data ++ r)) = false
      exact isPrefixOf_cons_false _ _ (by decide) _ _
    have h2 : ("error").data.isPrefixOf (("note").data ++ r) = false := by
      show (('e' : Char) :: ("rror").data).isPrefixOf
        (('n' : Char) :: (("ote").data ++ r)) = false
      exact isPrefixOf_cons_false _ _ (by decide) _ _
    unfold takeSeverity
    rw [if_neg (by simp [h1]), if_neg (by simp [h2]),
      if_pos (List.isPrefixOf_iff_prefix.mpr (List.prefix_append _ _))]
    have : (("note").data ++ r).drop 4 = r := drop_length_append _ _ _ (by decide)
    rw [this]

theorem matchCheck_spec (t chk : List Char) (h : matchCheck t = some chk) :
    ∃ rest, t = chk ++ (']' :: rest) ∧ chk ≠ [] ∧ ∀ c ∈ chk, c ≠ '\n' := by
  unfold matchCheck at h
  rcases firstSomeDown_eq_some _ _ _ h with ⟨k, hk1, hk2, hf⟩
  split at hf
  · rename_i c rest0 heq
    split_ifs at hf with hcond
    · injection hf with hchk
      obtain ⟨hc, hall⟩ := hcond
      subst hc
      have hklen : k < t.length := by
        by_contra hge
        have : t.drop k = [] := List.drop_eq_nil_of_le (by omega)
        rw [this] at heq
        cases heq
      refine ⟨rest0, ?_, ?_, ?_⟩
      · rw [← hchk]
        conv_lhs => rw [← List.take_append_drop k t]
        rw [heq]
      · rw [← hchk]
        have : (t.take k).length = k := by
          rw [List.length_take]
          omega
        intro hnil
        rw [hnil] at this
        simp at this
        omega
      · intro c hc2
        rw [← hchk] at hc2
        have := List.all_eq_true.mp hall c hc2
        simpa using this
  · cases hf

theorem matchCheck_complete (chk rest : List Char) (hne : chk ≠ [])
    (hok : ∀ c ∈ chk, c ≠ '\n') :
    (matchCheck (chk ++ (']' :: rest))).isSome = true := by
  unfold matchCheck
  apply firstSomeDown_isSome _ _ chk.length
  · exact List.length_pos.mpr hne
  · rw [List.length_append]
    exact Nat.le_add_right _ _
  · simp only [List.drop_left, List.take_left]
    have hall : chk.all (fun x => x != '\n') = true := by
      rw [List.all_eq_true]
      intro c hc
      simpa using hok c hc
    simp [hall]

theorem expectColon_spec (r r1 : List Char) (h : expectColon r = some r1) :
    r = ':' :: r1 := by
  unfold expectColon at h
  split at h
  · rename_i c rest
    split_ifs at h with hc
    · subst hc
      injection h with h2
      rw [h2]
  · cases h

theorem expectColon_cons (r : List Char) : expectColon (':' :: r) = some r := by
  simp [expectColon]

theorem expectColonSpace_spec (r r1 : List Char) (h : expectColonSpace r = some r1) :
    r = ':' :: ' ' :: r1 := by
  unfold expectColonSpace at h
  split at h
  · rename_i c d rest
    split_ifs at h with hcd
    · obtain ⟨hc, hd⟩ := hcd
      subst hc
      subst hd
      injection h with h2
      rw [h2]
  · cases h

theorem expectColonSpace_cons (r : List Char) :
    expectColonSpace (':' :: ' ' :: r) = some r := by
  simp [expectColonSpace]

theorem matchMsgCheck_spec (s msg chk : List Char)
    (h : matchMsgCheck s = some (msg, chk)) :
    ∃ rest, s = msg ++ (' ' :: '[' :: (chk ++ (']' :: rest))) ∧
      msg ≠ [] ∧ (∀ c ∈ msg, c ≠ '\n') ∧ chk ≠ [] ∧ ∀ c ∈ chk, c ≠ '\n' := by
  unfold matchMsgCheck at h
  rcases firstSomeDown_eq_some _ _ _ h with ⟨j, hj1, hj2, hf⟩
  split_ifs at hf with hall
  · split at hf
    · rename_i c d t heq
      split_ifs at hf with hcd
      · obtain ⟨hc, hd⟩ := hcd
        subst hc
        subst hd
        cases hmc : matchCheck t with
        | none => rw [hmc] at hf; cases hf
        | some chk2 =>
          rw [hmc] at hf
          simp only [Option.map_some'] at hf
          injection hf with hpair
          rw [Prod.mk.injEq] at hpair
          obtain ⟨hmsg, hchk⟩ := hpair
          rcases matchCheck_spec t chk (hchk ▸ hmc) with ⟨rest, ht, hne, hok⟩
          have hjlen : j < s.length := by
            by_contra hge
            have : s.drop j = [] := List.drop_eq_nil_of_le (by omega)
            rw [this] at heq
            cases heq
          refine ⟨rest, ?_, ?_, ?_, hne, hok⟩
          · conv_lhs => rw [← List.take_append_drop j s]
            rw [heq, ht, hmsg]
          · rw [← hmsg]
            have hlen : (s.take j).length = j := by
              rw [List.length_take]
              omega
            intro hnil
            rw [hnil] at hlen
            simp at hlen
            omega
          · intro c hc2
            rw [← hmsg] at hc2
            simpa using List.all_eq_true.mp hall c hc2
    · cases hf

theorem matchMsgCheck_complete (msg chk rest : List Char)
    (hmsg : msg ≠ []) (hmsgok : ∀ c ∈ msg, c ≠ '\n')
    (hchk : chk ≠ []) (hchkok : ∀ c ∈ chk, c ≠ '\n') :
    (matchMsgCheck (msg ++ (' ' :: '[' :: (chk ++ (']' :: rest))))).isSome = true := by
  unfold matchMsgCheck
  apply firstSomeDown_isSome _ _ msg.length
  · exact List.length_pos.mpr hmsg
  · rw [List.length_append]
    exact Nat.le_add_right _ _
  · simp only [List.take_left, List.drop_left]
    have hall : msg.all (fun c => c != '\n') = true := by
      rw [List.all_eq_true]
      intro c hc
      simpa using hmsgok c hc
    have hmc := matchCheck_complete chk rest hchk hchkok
    simp [hall, hmc]

theorem matchAfterFile_spec (r : List Char) (n1 n2 : Nat) (sev msg chk : List Char)
    (h : matchAfterFile r = some (n1, n2, sev, msg, chk)) :
    ∃ d1 d2 rest,
      r = ':' :: (d1 ++ (':' :: (d2 ++ (':' :: ' ' :: (sev ++ (':' :: ' ' :: (msg ++ (' ' :: '[' :: (chk ++ (']' :: rest)))))))))) ∧
      d1 ≠ [] ∧ (∀ c ∈ d1, c.isDigit = true) ∧ digitsToNat d1 = n1 ∧
      d2 ≠ [] ∧ (∀ c ∈ d2, c.isDigit = true) ∧ digitsToNat d2 = n2 ∧
      (sev = ("warning").data ∨ sev = ("error").data ∨ sev = ("note").data) ∧
      msg ≠ [] ∧ (∀ c ∈ msg, c ≠ '\n') ∧ chk ≠ [] ∧ ∀ c ∈ chk, c ≠ '\n' := by
  unfold matchAfterFile at h
  split at h
  · cases h
  · rename_i r1 hec1
    split_ifs at h with he1
    split at h
    · cases h
    · rename_i r3 hec2
      split_ifs at h with he2
      split at h
      · cases h
      · rename_i r5 hec3
        split at h
        · cases h
        · rename_i sev2 r6 hsev
          split at h
          · cases h
          · rename_i r7 hec4
            cases hmm : matchMsgCheck r7 with
            | none => rw [hmm] at h; cases h
            | some mc =>
              rw [hmm] at h
              simp only [Option.map_some'] at h
              injection h with htup
              obtain ⟨mcmsg, mcchk⟩ := mc
              simp only [Prod.mk.injEq] at htup
              obtain ⟨hn1, hn2, hsev2, hmsg2, hchk2⟩ := htup
              subst hsev2
              subst hmsg2
              subst hchk2
              obtain ⟨hsp1, hd1⟩ := takeDigits_spec r1
              obtain ⟨hsp2, hd2⟩ := takeDigits_spec r3
              rcases matchMsgCheck_spec r7 mcmsg mcchk hmm with
                ⟨rest, hr7, hmsgne, hmsgok, hchkne, hchkok⟩
              rcases takeSeverity_spec r5 sev2 r6 hsev with ⟨hr5, hsev3⟩
              refine ⟨(takeDigits r1).1, (takeDigits r3).1, rest, ?_, ?_,
                hd1, hn1, ?_, hd2, hn2, hsev3, hmsgne, hmsgok, hchkne, hchkok⟩
              · rw [expectColon_spec r r1 hec1]
                conv_lhs => rw [hsp1]
                rw [expectColon_spec _ r3 hec2]
                conv_lhs => rw [hsp2]
                rw [expectColonSpace_spec _ r5 hec3, hr5,
                  expectColonSpace_spec _ r7 hec4, hr7]
              · simpa [List.isEmpty_iff] using he1
              · simpa [List.isEmpty_iff] using he2

theorem matchAfterFile_complete (d1 d2 sev msg chk rest : List Char)
    (hd1 : d1 ≠ []) (hd1d : ∀ c ∈ d1, c.isDigit = true)
    (hd2 : d2 ≠ []) (hd2d : ∀ c ∈ d2, c.isDigit = true)
    (hsev : sev = ("warning").data ∨ sev = ("error").data ∨ sev = ("note").data)
    (hmsg : msg ≠ []) (hmsgok : ∀ c ∈ msg, c ≠ '\n')
    (hchk : chk ≠ []) (hchkok : ∀ c ∈ chk, c ≠ '\n') :
    (matchAfterFile (':' :: (d1 ++ (':' :: (d2 ++ (':' :: ' ' :: (sev ++ (':' :: ' ' :: (msg ++ (' ' :: '[' :: (chk ++ (']' :: rest)))))))))))).isSome = true := by
  unfold matchAfterFile
  have ht1 := takeDigits_append d1 hd1d ':' (by decide) (d2 ++ (':' :: ' ' :: (sev ++ (':' :: ' ' :: (msg ++ (' ' :: '[' :: (chk ++ (']' :: rest))))))))
  have he1 : d1.isEmpty = false := by
    simpa [List.isEmpty_iff] using hd1
  have ht2 := takeDigits_append d2 hd2d ':' (by decide) (' ' :: (sev ++ (':' :: ' ' :: (msg ++ (' ' :: '[' :: (chk ++ (']' :: rest)))))))
  have he2 : d2.isEmpty = false := by
    simpa [List.isEmpty_iff] using hd2
  have hts := takeSeverity_append sev (':' :: ' ' :: (msg ++ (' ' :: '[' :: (chk ++ (']' :: rest))))) hsev
  have hmm := matchMsgCheck_complete msg chk rest hmsg hmsgok hchk hchkok
  simp only [expectColon_cons, ht1, he1, ht2, he2, expectColonSpace_cons, hts,
    Bool.false_eq_true, if_false, ite_false]
  cases hx : matchMsgCheck (msg ++ (' ' :: '[' :: (chk ++ (']' :: rest)))) with
  | none => rw [hx] at hmm; cases hmm
  | some mc => simp [hx]

/-- Every line the parser recognizes decomposes per the fixed grammar, with
    the captured groups reassembling the line. -/
theorem parseLine_spec (l : List Char) (k : WKey) (h : parseLine l = some k) :
    DiagLineShape l k := by
  unfold parseLine at h
  rcases firstSomeDown_eq_some _ _ _ h with ⟨i, hi1, hi2, hf⟩
  split_ifs at hf with hall
  · cases hma : matchAfterFile (l.drop i) with
    | none => rw [hma] at hf; cases hf
    | some g =>
      rw [hma] at hf
      simp only [Option.map_some'] at hf
      injection hf with hk
      obtain ⟨n1, n2, sev, msg, chk⟩ := g
      subst hk
      rcases matchAfterFile_spec _ _ _ _ _ _ hma with
        ⟨d1, d2, rest, hshape, hd1ne, hd1d, hn1, hd2ne, hd2d, hn2, hsev,
          hmsgne, hmsgok, hchkne, hchkok⟩
      refine ⟨d1, d2, rest, ?_, ?_, ?_, hd1ne, hd1d, hn1, hd2ne, hd2d, hn2,
        hsev, hmsgne, hmsgok, hchkne, hchkok⟩
      · show l = l.take i ++ (':' :: (d1 ++ (':' :: (d2 ++ (':' :: ' ' ::
          (sev ++ (':' :: ' ' :: (msg ++ (' ' :: '[' :: (chk ++ (']' :: rest)))))))))))
        conv_lhs => rw [← List.take_append_drop i l]
        rw [hshape]
      · show l.take i ≠ []
        have hlen : (l.take i).length = i := by
          rw [List.length_take]
          omega
        intro hnil
        rw [hnil] at hlen
        simp at hlen
        omega
      · show ∀ c ∈ l.take i, c ≠ '\n'
        intro c hc
        simpa using List.all_eq_true.mp hall c hc

/-- Every line of the grammar's shape is recognized by the parser. -/
theorem parseLine_complete (l : List Char) (k : WKey) (h : DiagLineShape l k) :
    (parseLine l).isSome = true := by
  obtain ⟨d1, d2, rest, heq, hfne, hfok, hd1ne, hd1d, _, hd2ne, hd2d, _, hsev,
    hmne, hmok, hcne, hcok⟩ := h
  unfold parseLine
  apply firstSomeDown_isSome _ _ k.file.length
  · exact List.length_pos.mpr hfne
  · rw [heq, List.length_append]
    exact Nat.le_add_right _ _
  · have htake : l.take k.file.length = k.file := by
      rw [heq]
      exact List.take_left _ _
    have hdrop : l.drop k.file.length =
        ':' :: (d1 ++ (':' :: (d2 ++ (':' :: ' ' :: (k.severity ++ (':' :: ' ' ::
          (k.message ++ (' ' :: '[' :: (k.check ++ (']' :: rest)))))))))) := by
      rw [heq]
      exact List.drop_left _ _
    have hall : k.file.all (fun c => c != '\n') = true := by
      rw [List.all_eq_true]
      intro c hc
      simpa using hfok c hc
    have hmaf := matchAfterFile_complete d1 d2 k.severity k.message k.check rest
      hd1ne hd1d hd2ne hd2d hsev hmne hmok hcne hcok
    rw [htake, hdrop]
    simp only [hall, if_true, ite_true]
    cases hx : matchAfterFile
        (':' :: (d1 ++ (':' :: (d2 ++ (':' :: ' ' :: (k.severity ++ (':' :: ' ' ::
          (k.message ++ (' ' :: '[' :: (k.check ++ (']' :: rest))))))))))) with
    | none => rw [hx] at hmaf; cases hmaf
    | some g => simp [hx]

/-- A line whose parse succeeds with a fresh, non-excluded key appends
    exactly that key and warning to the state. -/
theorem processLine_add (pats : List (List Char)) (now : List Char)
    (st : ParserState) (l : List Char) (key : WKey)
    (hpl : parseLine l = some key)
    (hex : ¬(pats ≠ [] ∧ shouldExclude key.file pats = true))
    (hmem : key ∉ st.warningsSet) :
    processLine pats now st l =
      { warningsSet := st.warningsSet ++ [key]
        warnings := st.warnings ++ [mkWarning key now]
        fileWarnings := bumpCount key.file st.fileWarnings } := by
  unfold processLine
  split
  · rename_i hnone
    rw [hpl] at hnone
    cases hnone
  · rename_i key2 hpl2
    rw [hpl] at hpl2
    injection hpl2 with hk
    subst hk
    rw [if_neg hex, if_neg hmem, if_pos hex]

/-! ### Claim C8: the diagnostic line grammar -/

/-- C8: parsing the spec's example line collects exactly the stated
    diagnostic; a line the pattern does not match leaves the state untouched
    (ignored, no error); every recognized line matches the fixed grammar
    `file:line:column: severity: message [check]` with severity among
    warning, error and note; and every line of that shape is recognized. -/
theorem diag_line_grammar :
    (∀ now, (parseClangTidyOutput [] now emptyState
        (("foo.cpp:10:5: warning: unused variable 'x' [clang-diagnostic-unused-variable]").data)).warnings =
      [mkWarning
        { file := ("foo.cpp").data
          line := 10
          column := 5
          severity := ("warning").data
          message := ("unused variable 'x'").data
          check := ("clang-diagnostic-unused-variable").data } now]) ∧
    (∀ pats now st l, parseLine l = none → processLine pats now st l = st) ∧
    (∀ l k, parseLine l = some k → DiagLineShape l k) ∧
    (∀ l k, DiagLineShape l k → (parseLine l).isSome = true) := by
  refine ⟨?_, ?_, fun l k => parseLine_spec l k, fun l k => parseLine_complete l k⟩
  · intro now
    have hkey : parseLine
        (("foo.cpp:10:5: warning: unused variable 'x' [clang-diagnostic-unused-variable]").data) =
        some
          { file := ("foo.cpp").data
            line := 10
            column := 5
            severity := ("warning").data
            message := ("unused variable 'x'").data
            check := ("clang-diagnostic-unused-variable").data } := by decide
    unfold parseClangTidyOutput
    rw [show splitChar '\n'
        (("foo.cpp:10:5: warning: unused variable 'x' [clang-diagnostic-unused-variable]").data) =
        [("foo.cpp:10:5: warning: unused variable 'x' [clang-diagnostic-unused-variable]").data]
      from by decide]
    simp only [List.foldl_cons, List.foldl_nil]
    rw [processLine_add [] now emptyState _ _ hkey (by simp) (by simp [emptyState])]
    simp [emptyState]
  · intro pats now st l h
    unfold processLine
    split
    · rfl
    · rename_i key hpl
      rw [h] at hpl
      cases hpl

/-- Witness for C8: a non-diagnostic line is ignored, and the example line
    has the grammar's shape with the example's captured groups. -/
theorem diag_line_grammar_witness :
    processLine [] [] emptyState (("clang-tidy finished").data) = emptyState ∧
    DiagLineShape
      (("foo.cpp:10:5: warning: unused variable 'x' [clang-diagnostic-unused-variable]").data)
      { file := ("foo.cpp").data
        line := 10
        column := 5
        severity := ("warning").data
        message := ("unused variable 'x'").data
        check := ("clang-diagnostic-unused-variable").data } :=
  ⟨diag_line_grammar.2.1 [] [] emptyState _ (by decide),
   diag_line_grammar.2.2.1 _ _ (by decide)⟩

end ClangTidyFullReport
